import Mathlib

/-!
# Verification of the collecte-csv-merger core pipeline

Shallow embedding of the data-normalization and reconciliation pipeline of
the repository (schema unification, row reconciliation, sort-dedupe engine,
business classifier status rules, page assignment), together with theorems
settling the specification claims.

Strings are manipulated through their underlying character lists so that all
definitions evaluate by kernel reduction.  JavaScript's `String.prototype.trim`
and `toLowerCase` are modelled on the character fragment that the pipeline's
literals and comparisons actually exercise (ASCII whitespace; ASCII and
Latin-1 letters).
-/

namespace Collecte

/-- Whitespace recognised by the model of JS `trim` (ASCII fragment). -/
def isWsChar (c : Char) : Bool :=
  c == ' ' || c == '\t' || c == '\n' || c == '\r'

/-- Model of JS `String.prototype.trim`: drop whitespace from both ends. -/
def jsTrim (s : String) : String :=
  ⟨((s.data.dropWhile isWsChar).reverse.dropWhile isWsChar).reverse⟩

/-- Lower-casing of one character: ASCII `A`–`Z` and the Latin-1 uppercase
range `À`–`Þ` (except `×`) map to the code point 32 higher, as JS
`toLowerCase` does on this fragment; other characters are unchanged. -/
def jsCharToLower (c : Char) : Char :=
  if 'A' ≤ c && c ≤ 'Z' then Char.ofNat (c.toNat + 32)
  else if 'À' ≤ c && c ≤ 'Þ' && !(c == '×') then Char.ofNat (c.toNat + 32)
  else c

/-- Model of JS `String.prototype.toLowerCase` on the fragment above. -/
def jsToLower (s : String) : String :=
  ⟨s.data.map jsCharToLower⟩

/-- Does `l` start with the pattern `p`? -/
def listStartsWith : List Char → List Char → Bool
  | [], _ => true
  | _ :: _, [] => false
  | p :: ps, c :: cs => p == c && listStartsWith ps cs

/-- Does `p` occur as a contiguous run inside `l`? -/
def listHasSub (p : List Char) : List Char → Bool
  | [] => p.isEmpty
  | c :: cs => listStartsWith p (c :: cs) || listHasSub p cs

/-- Model of JS `String.prototype.includes`: `strIncludes s pat` is true when
`pat` occurs contiguously in `s`. -/
def strIncludes (s pat : String) : Bool :=
  listHasSub pat.data s.data

/-! ## Decimal representation of naturals

JS template literals render the occurrence counter in decimal.  The model uses
a fuel-driven recursion (kernel-reducible) and is bridged to Mathlib's
`Nat.digits` API for its properties. -/

/-- Little helper: big-endian decimal digit characters, with fuel. -/
def decimalDigitsAux : Nat → Nat → List Char
  | _, 0 => []
  | 0, _ + 1 => []
  | fuel + 1, m + 1 =>
    decimalDigitsAux fuel ((m + 1) / 10) ++ [Nat.digitChar ((m + 1) % 10)]

/-- Big-endian decimal digit characters of `n` (Mathlib form). -/
def digitsChars (n : Nat) : List Char :=
  ((Nat.digits 10 n).map Nat.digitChar).reverse

/-- Decimal rendering of a natural, as in a JS template literal. -/
def decimalRepr (n : Nat) : String :=
  if n = 0 then "0" else ⟨decimalDigitsAux n n⟩

/-- A character is a decimal digit character. -/
def isDigitCh (c : Char) : Bool :=
  '0' ≤ c && c ≤ '9'

/-! ## Data model (from `csv-logic`) -/

/-- A column descriptor of the canonical schema. -/
structure ColumnInfo where
  displayName : String
  occurrenceIndex : Nat
  internalKey : String
deriving DecidableEq

/-- A record: association list from `internalKey` to cell text, in the key
order the record was built with (a JS object keyed by `internalKey`). -/
def CsvRow : Type := List (String × String)

instance : DecidableEq CsvRow := inferInstanceAs (DecidableEq (List (String × String)))

/-- `row[key] || ""`: value under a key, empty string when absent. -/
def rowGet (row : CsvRow) (key : String) : String :=
  match List.lookup key row with
  | some v => v
  | none => ""

/-- The internal key: display name, then `"__occ"`, then the 1-based
occurrence counter rendered in decimal. -/
def mkInternalKey (d : String) (n : Nat) : String :=
  d ++ "__occ" ++ decimalRepr n

/-! ## Schema Unifier (from `processCsvFiles`, schema phase) -/

/-- Build a file's local schema from its header row.  `seen` is the list of
header cells already scanned (so `seen.count c` is the running per-name
counter of the JS code). -/
def localSchemaGo (seen : List String) : List String → List ColumnInfo
  | [] => []
  | c :: rest =>
    let occ := seen.count c + 1
    { displayName := c, occurrenceIndex := occ, internalKey := mkInternalKey c occ }
      :: localSchemaGo (seen ++ [c]) rest

/-- Local schema of a header row, with per-file 1-based occurrence indices. -/
def buildLocalSchema (header : List String) : List ColumnInfo :=
  localSchemaGo [] header

/-- Merge a local schema into the global one: append any descriptor whose
`internalKey` is not yet present (the JS `forEach` + `find` + `push`). -/
def mergeSchema (g l : List ColumnInfo) : List ColumnInfo :=
  l.foldl (fun acc lc =>
    match acc.find? (fun c => c.internalKey == lc.internalKey) with
    | some _ => acc
    | none => acc ++ [lc]) g

/-! ## Row Reconciler (from `processCsvFiles`, data-row phase) -/

/-- A row every cell of which is empty or whitespace-only (this also covers
the JS `row.length === 0` check, vacuously). -/
def isFullyEmptyRow (row : List String) : Bool :=
  row.all (fun c => jsTrim c == "")

/-- Build a record for one data row: one entry per descriptor of the current
global schema, taking the cell at the local column index when the key exists
in the file's local schema and the index is in bounds, else `""`. -/
def buildRowObj (globalSchema localSchema : List ColumnInfo) (row : List String) : CsvRow :=
  globalSchema.map (fun g =>
    match localSchema.findIdx? (fun l => l.internalKey == g.internalKey) with
    | some j => (g.internalKey, row.getD j "")
    | none => (g.internalKey, ""))

/-- Accumulated parse state across input files. -/
structure ParseState where
  allRows : List CsvRow
  globalSchema : List ColumnInfo
  allRowsCount : Nat
deriving DecidableEq

/-- Process one file: skip it when it has no rows, else merge its local
schema into the global schema (the first file's schema is taken verbatim)
and append its accepted data rows, aligned to the *current* global schema. -/
def processFileStep (i : Nat) (st : ParseState) (fileRows : List (List String)) : ParseState :=
  match fileRows with
  | [] => st
  | headerRow :: dataRows =>
    let localSchema := buildLocalSchema headerRow
    let newSchema := if i = 0 then localSchema else mergeSchema st.globalSchema localSchema
    let accepted := dataRows.filter (fun row => !(isFullyEmptyRow row))
    { allRows := st.allRows ++ accepted.map (buildRowObj newSchema localSchema),
      globalSchema := newSchema,
      allRowsCount := st.allRowsCount + accepted.length }

def parseFilesGo (i : Nat) (st : ParseState) : List (List (List String)) → ParseState
  | [] => st
  | f :: fs => parseFilesGo (i + 1) (processFileStep i st f) fs

/-- Parse all files in order, starting from the empty state. -/
def parseFiles (files : List (List (List String))) : ParseState :=
  parseFilesGo 0 ⟨[], [], 0⟩ files

/-! ## Sort-Dedupe Engine (from `processCsvFiles`, combine phase) -/

/-- `schema.find(c => c.displayName.trim() === "Done?")`. -/
def findDoneCol (schema : List ColumnInfo) : Option ColumnInfo :=
  schema.find? (fun c => jsTrim c.displayName == "Done?")

/-- `schema.find(c => c.displayName.trim() === "Asset number")`. -/
def findAssetCol (schema : List ColumnInfo) : Option ColumnInfo :=
  schema.find? (fun c => jsTrim c.displayName == "Asset number")

/-- The sort priority of a status cell value (`getSortPriority`). -/
def getSortPriority (caseInsensitive : Bool) (val : String) : Nat :=
  let trimmed := jsTrim val
  let cmp := if caseInsensitive then jsToLower trimmed else trimmed
  let yes := if caseInsensitive then "yes" else "Yes"
  let nlp := if caseInsensitive then "nlp" else "Nlp"
  let no := if caseInsensitive then "no" else "No"
  if cmp == yes then 1
  else if cmp == nlp then 3
  else if cmp == "" then 4
  else if cmp == no then 5
  else 2

/-- The comparison relation the JS comparator `pr(a) - pr(b)` induces. -/
def sortLE (ci : Bool) (key : String) (a b : CsvRow) : Prop :=
  getSortPriority ci (rowGet a key) ≤ getSortPriority ci (rowGet b key)

instance (ci : Bool) (key : String) : DecidableRel (sortLE ci key) :=
  fun _ _ => inferInstanceAs (Decidable (_ ≤ _))

instance (ci : Bool) (key : String) : IsTotal CsvRow (sortLE ci key) :=
  ⟨fun _ _ => Nat.le_total _ _⟩

instance (ci : Bool) (key : String) : IsTrans CsvRow (sortLE ci key) :=
  ⟨fun _ _ _ => Nat.le_trans⟩

/-- The sort step.  ECMAScript 2019 requires `Array.prototype.sort` to be
stable, and a stable sort w.r.t. a total preorder has a unique result, so the
step is modelled by insertion sort under the comparator's relation. -/
def doneSortStage (ci : Bool) (key : String) (rows : List CsvRow) : List CsvRow :=
  List.insertionSort (sortLE ci key) rows

/-- Sort only when the status column exists and order is not preserved. -/
def sortStage (ci po : Bool) (schema : List ColumnInfo) (rows : List CsvRow) : List CsvRow :=
  match findDoneCol schema, po with
  | some dc, false => doneSortStage ci dc.internalKey rows
  | _, _ => rows

/-- One-pass deduplication with a seen-set of trimmed identifier values. -/
def dedupeGo (key : String) (seen : List String) : List CsvRow → List CsvRow
  | [] => []
  | row :: rest =>
    let v := jsTrim (rowGet row key)
    if v == "" then row :: dedupeGo key seen rest
    else if seen.contains v then dedupeGo key seen rest
    else row :: dedupeGo key (v :: seen) rest

def dedupeRows (key : String) (rows : List CsvRow) : List CsvRow :=
  dedupeGo key [] rows

/-- Deduplicate only when the identifier column exists. -/
def dedupeStage (schema : List ColumnInfo) (rows : List CsvRow) : List CsvRow :=
  match findAssetCol schema with
  | some ac => dedupeRows ac.internalKey rows
  | none => rows

/-- The "not-done" literal under the case rule. -/
def doneNo (ci : Bool) : String := if ci then "no" else "No"

/-- `compare` in the done/to-do split: trimmed, lower-cased under the flag. -/
def doneCompare (ci : Bool) (v : String) : String :=
  if ci then jsToLower (jsTrim v) else jsTrim v

/-- Predicate of the to-do filter (`compare === no`). -/
def isNoRow (ci : Bool) (key : String) (row : CsvRow) : Bool :=
  doneCompare ci (rowGet row key) == doneNo ci

/-- Result record of `processCsvFiles`. -/
structure ProcessedResult where
  combinedDeduped : List CsvRow
  done : List CsvRow
  todo : List CsvRow
  allRowsCount : Nat
  schema : List ColumnInfo
  errors : List String
  hasDoneColumn : Bool
  hasAssetNumberColumn : Bool
deriving DecidableEq

/-- The whole `processCsvFiles` pipeline on already-tokenized files. -/
def processCsvFiles (files : List (List (List String)))
    (caseInsensitive : Bool) (preserveOrder : Bool) : ProcessedResult :=
  let st := parseFiles files
  let doneCol := findDoneCol st.globalSchema
  let assetCol := findAssetCol st.globalSchema
  let hasDone := doneCol.isSome
  let hasAsset := assetCol.isSome
  let errors :=
    (if hasDone then [] else ["Missing column: Done?"]) ++
    (if hasAsset then [] else ["Missing column: Asset number (dedupe skipped)"])
  let processed :=
    dedupeStage st.globalSchema (sortStage caseInsensitive preserveOrder st.globalSchema st.allRows)
  let done := match doneCol with
    | some dc => processed.filter (fun r => !(isNoRow caseInsensitive dc.internalKey r))
    | none => []
  let todo := match doneCol with
    | some dc => processed.filter (fun r => isNoRow caseInsensitive dc.internalKey r)
    | none => []
  { combinedDeduped := processed
    done := done
    todo := todo
    allRowsCount := st.allRowsCount
    schema := st.globalSchema
    errors := errors
    hasDoneColumn := hasDone
    hasAssetNumberColumn := hasAsset }

/-! ## Business Classifier (from `processWithExcelLogic`) -/

/-- `getCol`: resolve a display name (trimmed, first matching descriptor) and
return the trimmed cell value, or `""` when the column is absent. -/
def getCol (schema : List ColumnInfo) (row : CsvRow) (colName : String) : String :=
  match schema.find? (fun c => jsTrim c.displayName == colName) with
  | some c => jsTrim (rowGet row c.internalKey)
  | none => ""

/-- The status-normalization cascade applied to the `Done?` value
(`STATUS_VALUES` literals; first match wins, else the raw trimmed value). -/
def computeStatus (doneValue : String) : String :=
  let lower := jsToLower doneValue
  if strIncludes lower "not accessible" || strIncludes lower "non accessible" then
    "Not Accessible"
  else if strIncludes lower "not found" || strIncludes lower "pas trouvé" then
    "Not Found"
  else if lower == "nlp" then "NLP"
  else if strIncludes lower "question" then "Question"
  else if strIncludes lower "out of scope" || strIncludes lower "hors scope" ||
      strIncludes lower "obsolete" then "Out of scope"
  else doneValue

/-- The classified record (fields of `ProcessedEquipment` that the claims
reference; the remaining derived fields — conditions, features, lubrication
and procedure columns — are independent per-column reads not used by any
claim and are omitted from the model). -/
structure ProcessedEquipment where
  row : CsvRow
  assetNumber : String
  area : String
  isCritical : Bool
  isComplicated : Bool
  criticality : String
  status : String
  isDone : Bool
  pageNumber : Option Nat
deriving DecidableEq

/-- The per-record classifier (the body of the `data.map` in
`processWithExcelLogic`). -/
def processEquipRow (schema : List ColumnInfo) (row : CsvRow) : ProcessedEquipment :=
  let assetNumber := getCol schema row "Asset number"
  let doneValue := getCol schema row "Done?"
  let critical := getCol schema row "CRITICAL"
  let complicated := getCol schema row "Complicated"
  let critNum := getCol schema row "CRIT #"
  let isCritical := critical == "C" || critNum == "C"
  let isComplicated := jsToLower complicated == "complicated"
  let criticality :=
    if isCritical && isComplicated then "Critical & Complicated"
    else if isCritical then "C"
    else if isComplicated then "Complicated"
    else ""
  { row := row
    assetNumber := assetNumber
    area := getCol schema row "Area"
    isCritical := isCritical
    isComplicated := isComplicated
    criticality := criticality
    status := computeStatus doneValue
    isDone := jsToLower doneValue == "yes"
    pageNumber := none }

/-! ## Page Assigner (from `assignPageNumbers`) -/

/-- The grouping key: `` `${eq.area || 'Unknown'}_${eq.assetNumber || 'Unknown'}` ``. -/
def pageKey (eq : ProcessedEquipment) : String :=
  (if eq.area == "" then "Unknown" else eq.area) ++ "_" ++
    (if eq.assetNumber == "" then "Unknown" else eq.assetNumber)

/-- Insertion into the insertion-ordered grouping map (`Map.get(...).push`,
with a new key appended at the end). -/
def groupInsert (m : List (String × List ProcessedEquipment)) (k : String)
    (e : ProcessedEquipment) : List (String × List ProcessedEquipment) :=
  match m with
  | [] => [(k, [e])]
  | (k', es) :: rest =>
    if k' == k then (k', es ++ [e]) :: rest else (k', es) :: groupInsert rest k e

/-- Group the input by `pageKey`, in first-encounter order of keys. -/
def buildGroups (l : List ProcessedEquipment) : List (String × List ProcessedEquipment) :=
  l.foldl (fun m e => groupInsert m (pageKey e) e) []

/-- Emit the groups in map order, stamping page number `n` on the first
group, `n+1` on the next, and so on. -/
def numberGroups (n : Nat) : List (String × List ProcessedEquipment) → List ProcessedEquipment
  | [] => []
  | (_, es) :: rest =>
    es.map (fun it => { it with pageNumber := some n }) ++ numberGroups (n + 1) rest

/-- `assignPageNumbers`: group by the concatenated area/asset key and assign
sequential page numbers starting at 1 in group-insertion order. -/
def assignPageNumbers (equipment : List ProcessedEquipment) : List ProcessedEquipment :=
  numberGroups 1 (buildGroups equipment)

/-- First-encounter order of page keys in the input. -/
def firstKeys (l : List ProcessedEquipment) : List String :=
  l.foldl (fun ks e => if ks.contains (pageKey e) then ks else ks ++ [pageKey e]) []

/-! ## Invariant predicates and concrete-record builders used by the proofs -/

/-- The well-formedness predicate every schema descriptor satisfies. -/
def GoodCol (e : ColumnInfo) : Prop :=
  e.internalKey = mkInternalKey e.displayName e.occurrenceIndex ∧ 1 ≤ e.occurrenceIndex

/-- Schema invariant of the parse state. -/
def SchemaInv (st : ParseState) : Prop :=
  ((st.globalSchema.map (·.internalKey)).Nodup) ∧ ∀ e ∈ st.globalSchema, GoodCol e

/-- Rows invariant: every accumulated record's key list is a prefix of the
current global schema's key list. -/
def RowsInv (st : ParseState) : Prop :=
  ∀ r ∈ st.allRows, ∃ t, r.map Prod.fst ++ t = st.globalSchema.map (·.internalKey)

/-- A classified record with the given area, identifier and page number, all
other fields defaulted, for concrete page-assignment inputs. -/
def mkEquip (a id : String) (pn : Option Nat) : ProcessedEquipment :=
  { row := [], assetNumber := id, area := a, isCritical := false, isComplicated := false,
    criticality := "", status := "", isDone := false, pageNumber := pn }

/-! ## Lemmas about the decimal representation and internal keys -/

theorem decimalDigitsAux_eq (fuel n : Nat) (h : n ≤ fuel) :
    decimalDigitsAux fuel n = digitsChars n := by
  induction fuel generalizing n with
  | zero =>
    interval_cases n
    simp [decimalDigitsAux, digitsChars]
  | succ fuel ih =>
    match n with
    | 0 => simp [decimalDigitsAux, digitsChars]
    | m + 1 =>
      have hdiv : (m + 1) / 10 ≤ fuel :=
        Nat.le_of_lt_succ (Nat.lt_of_lt_of_le (Nat.div_lt_self (Nat.succ_pos m) (by norm_num)) h)
      rw [decimalDigitsAux, ih _ hdiv]
      simp only [digitsChars]
      rw [Nat.digits_def' (by norm_num : (1:Nat) < 10) (Nat.succ_pos m)]
      simp

theorem decimalRepr_data (n : Nat) (h : 1 ≤ n) :
    (decimalRepr n).data = digitsChars n := by
  have hn : n ≠ 0 := Nat.one_le_iff_ne_zero.mp h
  rw [decimalRepr, if_neg hn, decimalDigitsAux_eq n n le_rfl]

theorem digitChar_isDigitCh {d : Nat} (h : d < 10) :
    isDigitCh (Nat.digitChar d) = true := by
  interval_cases d <;> decide

theorem digitChar_inj {a b : Nat} (ha : a < 10) (hb : b < 10)
    (h : Nat.digitChar a = Nat.digitChar b) : a = b := by
  interval_cases a <;> interval_cases b <;> first | rfl | exact absurd h (by decide)

theorem digitsChars_all_digits (n : Nat) :
    ∀ c ∈ digitsChars n, isDigitCh c = true := by
  intro c hc
  rw [digitsChars, List.mem_reverse, List.mem_map] at hc
  obtain ⟨d, hd, rfl⟩ := hc
  exact digitChar_isDigitCh (Nat.digits_lt_base (by norm_num) hd)

theorem digitsChars_ne_nil {n : Nat} (h : 1 ≤ n) : digitsChars n ≠ [] := by
  rw [digitsChars]
  simp only [ne_eq, List.reverse_eq_nil_iff, List.map_eq_nil_iff]
  exact Nat.digits_ne_nil_iff_ne_zero.mpr (Nat.one_le_iff_ne_zero.mp h)

theorem digit_list_map_inj : ∀ (l₁ l₂ : List Nat),
    (∀ x ∈ l₁, x < 10) → (∀ x ∈ l₂, x < 10) →
    l₁.map Nat.digitChar = l₂.map Nat.digitChar → l₁ = l₂ := by
  intro l₁
  induction l₁ with
  | nil => intro l₂ _ _ h; cases l₂ <;> simp_all
  | cons a t ih =>
    intro l₂ h₁ h₂ h
    cases l₂ with
    | nil => simp at h
    | cons b t₂ =>
      simp only [List.map_cons, List.cons.injEq] at h
      have hab := digitChar_inj (h₁ a (by simp)) (h₂ b (by simp)) h.1
      have := ih t₂ (fun x hx => h₁ x (by simp [hx])) (fun x hx => h₂ x (by simp [hx])) h.2
      simp [hab, this]

theorem digitsChars_inj {n₁ n₂ : Nat} (h : digitsChars n₁ = digitsChars n₂) :
    n₁ = n₂ := by
  rw [digitsChars, digitsChars] at h
  have h' := List.reverse_injective h
  have hd : Nat.digits 10 n₁ = Nat.digits 10 n₂ :=
    digit_list_map_inj _ _ (fun x hx => Nat.digits_lt_base (by norm_num) hx)
      (fun x hx => Nat.digits_lt_base (by norm_num) hx) h'
  calc n₁ = Nat.ofDigits 10 (Nat.digits 10 n₁) := (Nat.ofDigits_digits 10 n₁).symm
    _ = Nat.ofDigits 10 (Nat.digits 10 n₂) := by rw [hd]
    _ = n₂ := Nat.ofDigits_digits 10 n₂

/-- Splitting lemma: a list that decomposes as digit characters followed by a
non-digit character decomposes uniquely. -/
theorem digit_split : ∀ (a₁ a₂ s₁ s₂ : List Char) (c₁ c₂ : Char),
    (∀ c ∈ a₁, isDigitCh c = true) → (∀ c ∈ a₂, isDigitCh c = true) →
    isDigitCh c₁ = false → isDigitCh c₂ = false →
    a₁ ++ c₁ :: s₁ = a₂ ++ c₂ :: s₂ → a₁ = a₂ ∧ c₁ = c₂ ∧ s₁ = s₂ := by
  intro a₁
  induction a₁ with
  | nil =>
    intro a₂ s₁ s₂ c₁ c₂ _ h₂ hc₁ _ h
    cases a₂ with
    | nil => simp_all
    | cons b t =>
      simp only [List.nil_append, List.cons_append, List.cons.injEq] at h
      rw [h.1] at hc₁
      rw [h₂ b (by simp)] at hc₁
      cases hc₁
  | cons a t ih =>
    intro a₂ s₁ s₂ c₁ c₂ h₁ h₂ hc₁ hc₂ h
    cases a₂ with
    | nil =>
      simp only [List.nil_append, List.cons_append, List.cons.injEq] at h
      rw [← h.1] at hc₂
      rw [h₁ a (by simp)] at hc₂
      cases hc₂
    | cons b t₂ =>
      simp only [List.cons_append, List.cons.injEq] at h
      obtain ⟨rfl, h'⟩ := h
      have := ih t₂ s₁ s₂ c₁ c₂ (fun c hc => h₁ c (by simp [hc]))
        (fun c hc => h₂ c (by simp [hc])) hc₁ hc₂ h'
      simp_all

theorem mkInternalKey_inj {d₁ d₂ : String} {n₁ n₂ : Nat} (h₁ : 1 ≤ n₁) (h₂ : 1 ≤ n₂)
    (h : mkInternalKey d₁ n₁ = mkInternalKey d₂ n₂) : d₁ = d₂ ∧ n₁ = n₂ := by
  have hdata : d₁.data ++ ("__occ".data ++ (decimalRepr n₁).data)
      = d₂.data ++ ("__occ".data ++ (decimalRepr n₂).data) := by
    have := congrArg String.data h
    simpa [mkInternalKey, String.data_append, List.append_assoc] using this
  rw [decimalRepr_data n₁ h₁, decimalRepr_data n₂ h₂] at hdata
  have hocc : "__occ".data = ['_', '_', 'o', 'c', 'c'] := rfl
  rw [hocc] at hdata
  have hrev := congrArg List.reverse hdata
  simp only [List.reverse_append, List.reverse_cons, List.reverse_nil, List.nil_append,
    List.append_assoc] at hrev
  have hsplit := digit_split (digitsChars n₁).reverse (digitsChars n₂).reverse
    ('c' :: 'o' :: '_' :: '_' :: d₁.data.reverse) ('c' :: 'o' :: '_' :: '_' :: d₂.data.reverse)
    'c' 'c'
    (fun c hc => digitsChars_all_digits n₁ c (List.mem_reverse.mp hc))
    (fun c hc => digitsChars_all_digits n₂ c (List.mem_reverse.mp hc))
    (by decide) (by decide)
    (by simpa using hrev)
  obtain ⟨hr, -, hs⟩ := hsplit
  have hn : n₁ = n₂ := digitsChars_inj (List.reverse_injective hr)
  have hd : d₁.data = d₂.data := by
    simp only [List.cons.injEq, true_and] at hs
    exact List.reverse_injective hs
  exact ⟨String.ext hd, hn⟩

/-! ## Lemmas about deduplication -/

theorem dedupeGo_filter_blank (key : String) :
    ∀ (l : List CsvRow) (seen : List String),
    (dedupeGo key seen l).filter (fun r => jsTrim (rowGet r key) == "")
      = l.filter (fun r => jsTrim (rowGet r key) == "") := by
  intro l
  induction l with
  | nil => intro seen; rfl
  | cons row rest ih =>
    intro seen
    by_cases hb : jsTrim (rowGet row key) = ""
    · simp [dedupeGo, hb, List.filter_cons, ih]
    · by_cases hs : jsTrim (rowGet row key) ∈ seen
      · simp [dedupeGo, hb, hs, List.filter_cons, ih]
      · simp [dedupeGo, hb, hs, List.filter_cons, ih]

theorem dedupeGo_cons_blank (key : String) (row : CsvRow) (rest : List CsvRow)
    (seen : List String) (h : jsTrim (rowGet row key) = "") :
    dedupeGo key seen (row :: rest) = row :: dedupeGo key seen rest := by
  simp [dedupeGo, h]

theorem dedupeGo_cons_seen (key : String) (row : CsvRow) (rest : List CsvRow)
    (seen : List String) (h : jsTrim (rowGet row key) ≠ "")
    (h₂ : jsTrim (rowGet row key) ∈ seen) :
    dedupeGo key seen (row :: rest) = dedupeGo key seen rest := by
  simp [dedupeGo, h, h₂]

theorem dedupeGo_cons_new (key : String) (row : CsvRow) (rest : List CsvRow)
    (seen : List String) (h : jsTrim (rowGet row key) ≠ "")
    (h₂ : jsTrim (rowGet row key) ∉ seen) :
    dedupeGo key seen (row :: rest)
      = row :: dedupeGo key (jsTrim (rowGet row key) :: seen) rest := by
  simp [dedupeGo, h, h₂]

theorem dedupeGo_filter_id (key : String) (v : String) (hv : v ≠ "") :
    ∀ (l : List CsvRow) (seen : List String),
    (dedupeGo key seen l).filter (fun r => jsTrim (rowGet r key) == v)
      = if v ∈ seen then []
        else (l.filter (fun r => jsTrim (rowGet r key) == v)).take 1 := by
  intro l
  induction l with
  | nil => intro seen; by_cases hs : v ∈ seen <;> simp [dedupeGo, hs]
  | cons row rest ih =>
    intro seen
    by_cases hb : jsTrim (rowGet row key) = ""
    · have hbv : jsTrim (rowGet row key) ≠ v := by rw [hb]; exact (Ne.symm hv)
      rw [dedupeGo_cons_blank key row rest seen hb, List.filter_cons, List.filter_cons]
      simp [hbv, ih seen]
    · by_cases hrv : jsTrim (rowGet row key) = v
      · by_cases hs : v ∈ seen
        · rw [dedupeGo_cons_seen key row rest seen hb (hrv ▸ hs), ih seen]
          simp [hs]
        · rw [dedupeGo_cons_new key row rest seen hb (hrv ▸ hs),
            List.filter_cons, List.filter_cons, ih]
          have hm : v ∈ jsTrim (rowGet row key) :: seen := by
            rw [hrv]; exact List.mem_cons_self v seen
          simp [hm, hs, hrv]
      · by_cases hs : jsTrim (rowGet row key) ∈ seen
        · rw [dedupeGo_cons_seen key row rest seen hb hs, ih seen, List.filter_cons]
          simp [hrv]
        · rw [dedupeGo_cons_new key row rest seen hb hs, List.filter_cons, ih]
          have hm : (v ∈ jsTrim (rowGet row key) :: seen) ↔ v ∈ seen := by
            simp [List.mem_cons, Ne.symm hrv]
          simp [hrv, hm, List.filter_cons]

theorem dedupeGo_sublist (key : String) :
    ∀ (l : List CsvRow) (seen : List String), List.Sublist (dedupeGo key seen l) l := by
  intro l
  induction l with
  | nil => intro seen; simp [dedupeGo]
  | cons row rest ih =>
    intro seen
    by_cases hb : jsTrim (rowGet row key) = ""
    · simpa [dedupeGo, hb] using List.Sublist.cons₂ row (ih seen)
    · by_cases hs : jsTrim (rowGet row key) ∈ seen
      · simpa [dedupeGo, hb, hs] using List.Sublist.cons row (ih seen)
      · simpa [dedupeGo, hb, hs] using
          List.Sublist.cons₂ row (ih (jsTrim (rowGet row key) :: seen))

theorem dedupeGo_idem (key : String) :
    ∀ (l : List CsvRow) (seen : List String),
    dedupeGo key seen (dedupeGo key seen l) = dedupeGo key seen l := by
  intro l
  induction l with
  | nil => intro seen; rfl
  | cons row rest ih =>
    intro seen
    by_cases hb : jsTrim (rowGet row key) = ""
    · simp [dedupeGo, hb, ih]
    · by_cases hs : jsTrim (rowGet row key) ∈ seen
      · simp [dedupeGo, hb, hs, ih]
      · simp [dedupeGo, hb, hs, ih]

/-! ## Claims C4, C5, C10 -/

/-- C4: when the identifier column is present, deduplication keeps, for every
non-blank trimmed identifier value, exactly the first record (in sequence
order) with that identifier and discards later ones, keeps every
blank-identifier record unconditionally, and preserves relative order
(the output is a sublist of the input). -/
theorem claim_C4 :
    (∀ files ci po, (processCsvFiles files ci po).hasAssetNumberColumn = true →
      ∃ ac, findAssetCol (parseFiles files).globalSchema = some ac ∧
        (processCsvFiles files ci po).combinedDeduped
          = dedupeRows ac.internalKey
              (sortStage ci po (parseFiles files).globalSchema (parseFiles files).allRows)) ∧
    (∀ key rows,
      (dedupeRows key rows).filter (fun r => jsTrim (rowGet r key) == "")
        = rows.filter (fun r => jsTrim (rowGet r key) == "") ∧
      (∀ v, v ≠ "" →
        (dedupeRows key rows).filter (fun r => jsTrim (rowGet r key) == v)
          = (rows.filter (fun r => jsTrim (rowGet r key) == v)).take 1) ∧
      List.Sublist (dedupeRows key rows) rows) := by
  constructor
  · intro files ci po h
    simp only [processCsvFiles] at h ⊢
    obtain ⟨ac, hac⟩ := Option.isSome_iff_exists.mp h
    exact ⟨ac, hac, by simp [dedupeStage, hac]⟩
  · intro key rows
    refine ⟨dedupeGo_filter_blank key rows [], fun v hv => ?_, dedupeGo_sublist key rows []⟩
    simpa using dedupeGo_filter_id key v hv rows []

/-- Witness for C4 at a concrete input: identifier column present; the two
`A1` rows collapse to the first one. -/
theorem claim_C4_witness :
    (("A1" : String) ≠ "" ∧
      (dedupeRows "k" [[("k", "A1"), ("v", "1")], [("k", "A1"), ("v", "2")], [("k", ""), ("v", "3")]]).filter
          (fun r => jsTrim (rowGet r "k") == "A1")
        = ([[("k", "A1"), ("v", "1")], [("k", "A1"), ("v", "2")], [("k", ""), ("v", "3")]].filter
            (fun r => jsTrim (rowGet r "k") == "A1")).take 1) ∧
    ((processCsvFiles [[["Asset number"], ["A1"], ["A1"]]] false true).hasAssetNumberColumn = true ∧
      ∃ ac, findAssetCol (parseFiles [[["Asset number"], ["A1"], ["A1"]]]).globalSchema = some ac ∧
        (processCsvFiles [[["Asset number"], ["A1"], ["A1"]]] false true).combinedDeduped
          = dedupeRows ac.internalKey
              (sortStage false true (parseFiles [[["Asset number"], ["A1"], ["A1"]]]).globalSchema
                (parseFiles [[["Asset number"], ["A1"], ["A1"]]]).allRows)) :=
  ⟨⟨by decide, (claim_C4.2 "k" _).2.1 "A1" (by decide)⟩,
    by decide, claim_C4.1 [[["Asset number"], ["A1"], ["A1"]]] false true (by decide)⟩

/-- C5: the deduplication step is idempotent, both as the raw key-driven pass
and as the pipeline stage (which skips when the identifier column is absent). -/
theorem claim_C5 :
    (∀ key rows, dedupeRows key (dedupeRows key rows) = dedupeRows key rows) ∧
    (∀ schema rows, dedupeStage schema (dedupeStage schema rows) = dedupeStage schema rows) := by
  constructor
  · intro key rows
    exact dedupeGo_idem key rows []
  · intro schema rows
    unfold dedupeStage
    cases findAssetCol schema with
    | none => rfl
    | some ac => exact dedupeGo_idem ac.internalKey rows []

/-- C10: deduplication compares trimmed identifiers case-sensitively whatever
the case-insensitive flag is: the combined-deduplicated output is identical
for both flag values when sorting is disabled, and two records whose trimmed
identifiers differ only in letter case are both kept. -/
theorem claim_C10 :
    (∀ files, (processCsvFiles files true true).combinedDeduped
      = (processCsvFiles files false true).combinedDeduped) ∧
    (∀ key r₁ r₂, jsTrim (rowGet r₁ key) ≠ jsTrim (rowGet r₂ key) →
      jsToLower (jsTrim (rowGet r₁ key)) = jsToLower (jsTrim (rowGet r₂ key)) →
      dedupeRows key [r₁, r₂] = [r₁, r₂]) := by
  constructor
  · intro files
    have hsort : ∀ (ci : Bool) rows,
        sortStage ci true (parseFiles files).globalSchema rows = rows := by
      intro ci rows
      unfold sortStage
      cases findDoneCol (parseFiles files).globalSchema <;> rfl
    simp [processCsvFiles, hsort]
  · intro key r₁ r₂ hne _hcase
    by_cases h₁ : jsTrim (rowGet r₁ key) = ""
    · by_cases h₂ : jsTrim (rowGet r₂ key) = "" <;>
        simp [dedupeRows, dedupeGo, h₁, h₂]
    · by_cases h₂ : jsTrim (rowGet r₂ key) = ""
      · simp [dedupeRows, dedupeGo, h₁, h₂]
      · simp [dedupeRows, dedupeGo, h₁, h₂, List.contains_cons, Ne.symm hne]

/-! ## Lemmas about the schema -/

theorem localSchemaGo_mem : ∀ (rest : List String) (seen : List String) (e : ColumnInfo),
    e ∈ localSchemaGo seen rest →
    e.internalKey = mkInternalKey e.displayName e.occurrenceIndex ∧
      seen.count e.displayName < e.occurrenceIndex := by
  intro rest
  induction rest with
  | nil => intro seen e h; cases h
  | cons c t ih =>
    intro seen e h
    rw [localSchemaGo] at h
    rcases List.mem_cons.mp h with h | h
    · subst h
      exact ⟨rfl, Nat.lt_succ_self _⟩
    · obtain ⟨hk, hlt⟩ := ih (seen ++ [c]) e h
      refine ⟨hk, lt_of_le_of_lt ?_ hlt⟩
      rw [List.count_append]
      exact Nat.le_add_right _ _

theorem localSchemaGo_nodup : ∀ (rest : List String) (seen : List String),
    ((localSchemaGo seen rest).map (·.internalKey)).Nodup := by
  intro rest
  induction rest with
  | nil => intro seen; simp [localSchemaGo]
  | cons c t ih =>
    intro seen
    rw [localSchemaGo]
    simp only [List.map_cons, List.nodup_cons]
    refine ⟨?_, ih (seen ++ [c])⟩
    intro hmem
    obtain ⟨e, he, hkey⟩ := List.mem_map.mp hmem
    obtain ⟨hk, hlt⟩ := localSchemaGo_mem t (seen ++ [c]) e he
    rw [hk] at hkey
    have h1 : 1 ≤ seen.count c + 1 := Nat.le_add_left 1 _
    have h2 : 1 ≤ e.occurrenceIndex := Nat.lt_of_le_of_lt (Nat.zero_le _) hlt
    obtain ⟨hd, hocc⟩ := mkInternalKey_inj h2 h1 hkey
    rw [hd] at hlt
    simp [List.count_append] at hlt
    omega

theorem mergeSchema_entries (P : ColumnInfo → Prop) :
    ∀ (l g : List ColumnInfo), (∀ e ∈ g, P e) → (∀ e ∈ l, P e) →
    ∀ e ∈ mergeSchema g l, P e := by
  intro l
  induction l with
  | nil => intro g hg _ e he; exact hg e he
  | cons lc t ih =>
    intro g hg hl e he
    rw [mergeSchema, List.foldl_cons] at he
    cases hfind : g.find? (fun c => c.internalKey == lc.internalKey) with
    | some _ =>
      rw [hfind] at he
      exact ih g hg (fun x hx => hl x (List.mem_cons_of_mem lc hx)) e he
    | none =>
      rw [hfind] at he
      refine ih (g ++ [lc]) ?_ (fun x hx => hl x (List.mem_cons_of_mem lc hx)) e he
      intro x hx
      rcases List.mem_append.mp hx with hx | hx
      · exact hg x hx
      · rw [List.mem_singleton.mp hx]
        exact hl lc (List.mem_cons_self lc t)

theorem mergeSchema_nodup : ∀ (l g : List ColumnInfo),
    ((g.map (·.internalKey)).Nodup) → ((mergeSchema g l).map (·.internalKey)).Nodup := by
  intro l
  induction l with
  | nil => intro g hg; exact hg
  | cons lc t ih =>
    intro g hg
    rw [mergeSchema, List.foldl_cons]
    cases hfind : g.find? (fun c => c.internalKey == lc.internalKey) with
    | some _ => exact ih g hg
    | none =>
      refine ih (g ++ [lc]) ?_
      have hnot : lc.internalKey ∉ g.map (·.internalKey) := by
        intro hmem
        obtain ⟨e, he, hkey⟩ := List.mem_map.mp hmem
        have := List.find?_eq_none.mp hfind e he
        simp [hkey] at this
      simp only [List.map_append, List.map_cons, List.map_nil]
      rw [List.nodup_append]
      refine ⟨hg, List.nodup_singleton _, ?_⟩
      intro a ha hb
      rw [List.mem_singleton] at hb
      subst hb
      exact hnot ha

theorem buildLocalSchema_good : ∀ (header : List String) (e : ColumnInfo),
    e ∈ buildLocalSchema header → GoodCol e := by
  intro header e he
  obtain ⟨hk, hlt⟩ := localSchemaGo_mem header [] e he
  exact ⟨hk, Nat.lt_of_le_of_lt (Nat.zero_le _) hlt⟩

theorem processFileStep_schemaInv (i : Nat) (st : ParseState) (f : List (List String))
    (h : SchemaInv st) : SchemaInv (processFileStep i st f) := by
  match f with
  | [] => exact h
  | headerRow :: dataRows =>
    rw [processFileStep]
    by_cases hi : i = 0
    · simp only [hi, if_pos rfl]
      exact ⟨localSchemaGo_nodup headerRow [], buildLocalSchema_good headerRow⟩
    · simp only [if_neg hi]
      exact ⟨mergeSchema_nodup _ _ h.1,
        mergeSchema_entries GoodCol _ _ h.2 (buildLocalSchema_good headerRow)⟩

theorem parseFilesGo_schemaInv : ∀ (files : List (List (List String))) (i : Nat)
    (st : ParseState), SchemaInv st → SchemaInv (parseFilesGo i st files) := by
  intro files
  induction files with
  | nil => intro i st h; exact h
  | cons f fs ih =>
    intro i st h
    exact ih (i + 1) _ (processFileStep_schemaInv i st f h)

theorem parseFiles_schemaInv (files : List (List (List String))) :
    SchemaInv (parseFiles files) :=
  parseFilesGo_schemaInv files 0 _ ⟨List.nodup_nil, by intro e he; cases he⟩

theorem localSchemaGo_get? : ∀ (rest : List String) (seen : List String) (i : Nat),
    (localSchemaGo seen rest)[i]? = (rest[i]?).map (fun c =>
      { displayName := c, occurrenceIndex := (seen ++ rest.take i).count c + 1,
        internalKey := mkInternalKey c ((seen ++ rest.take i).count c + 1) }) := by
  intro rest
  induction rest with
  | nil => intro seen i; simp [localSchemaGo]
  | cons c t ih =>
    intro seen i
    match i with
    | 0 => simp [localSchemaGo]
    | j + 1 =>
      rw [localSchemaGo]
      simp only [List.getElem?_cons_succ, List.take_succ_cons]
      rw [ih (seen ++ [c]) j]
      cases hopt : t[j]? with
      | none => rfl
      | some d => simp [List.append_assoc]

/-! ## Claim C2 -/

/-- C2: the canonical schema has pairwise-distinct `internalKey`s, each equal
to the raw display name concatenated with `"__occ"` and the decimal 1-based
per-file occurrence count of that display name (the descriptor at position
`i` of a file's local schema counts earlier header cells with the same
text). -/
theorem claim_C2 :
    (∀ files ci po,
      (((processCsvFiles files ci po).schema.map (·.internalKey)).Nodup) ∧
      ∀ c ∈ (processCsvFiles files ci po).schema,
        c.internalKey = c.displayName ++ "__occ" ++ decimalRepr c.occurrenceIndex ∧
          1 ≤ c.occurrenceIndex) ∧
    (∀ (header : List String) (i : Nat),
      (buildLocalSchema header)[i]? = (header[i]?).map (fun c =>
        ({ displayName := c, occurrenceIndex := (header.take i).count c + 1,
           internalKey := mkInternalKey c ((header.take i).count c + 1) } : ColumnInfo))) := by
  constructor
  · intro files ci po
    have hinv := parseFiles_schemaInv files
    have hschema : (processCsvFiles files ci po).schema = (parseFiles files).globalSchema := by
      simp [processCsvFiles]
    rw [hschema]
    exact ⟨hinv.1, fun c hc => (hinv.2 c hc : GoodCol c)⟩
  · intro header i
    simpa using localSchemaGo_get? header [] i

/-- Witness for C2 at a concrete input: a duplicated header `A` yields the
descriptor `A__occ2`, whose key is well-formed. -/
theorem claim_C2_witness :
    (⟨"A", 2, "A__occ2"⟩ : ColumnInfo) ∈ (processCsvFiles [[["A", "A"], ["1", "2"]]] false true).schema ∧
    ((⟨"A", 2, "A__occ2"⟩ : ColumnInfo).internalKey
        = (⟨"A", 2, "A__occ2"⟩ : ColumnInfo).displayName ++ "__occ"
            ++ decimalRepr (⟨"A", 2, "A__occ2"⟩ : ColumnInfo).occurrenceIndex ∧
      1 ≤ (⟨"A", 2, "A__occ2"⟩ : ColumnInfo).occurrenceIndex) :=
  ⟨by decide, (claim_C2.1 [[["A", "A"], ["1", "2"]]] false true).2 _ (by decide)⟩

/-! ## Lemmas about the combine stages -/

theorem sortStage_preserveOrder (ci : Bool) (schema : List ColumnInfo) (rows : List CsvRow) :
    sortStage ci true schema rows = rows := by
  unfold sortStage
  cases findDoneCol schema <;> rfl

theorem sortStage_perm (ci po : Bool) (schema : List ColumnInfo) (rows : List CsvRow) :
    List.Perm (sortStage ci po schema rows) rows := by
  unfold sortStage
  cases findDoneCol schema with
  | none => cases po <;> exact List.Perm.refl rows
  | some dc =>
    cases po with
    | false => exact List.perm_insertionSort _ rows
    | true => exact List.Perm.refl rows

theorem dedupeStage_sublist (schema : List ColumnInfo) (rows : List CsvRow) :
    List.Sublist (dedupeStage schema rows) rows := by
  unfold dedupeStage
  cases findAssetCol schema with
  | none => exact List.Sublist.refl rows
  | some ac => exact dedupeGo_sublist ac.internalKey rows []

theorem combinedDeduped_mem (files : List (List (List String))) (ci po : Bool) (r : CsvRow)
    (h : r ∈ (processCsvFiles files ci po).combinedDeduped) :
    r ∈ (parseFiles files).allRows := by
  simp only [processCsvFiles] at h
  exact (sortStage_perm ci po _ _).subset (List.Sublist.subset (dedupeStage_sublist _ _) h)

/-! ## Claims C6 and C7 -/

/-- C6: whenever the status column is present, the "done" output is the
combined-deduplicated sequence filtered by `compare ≠ no`, the "to-do" output
is the complementary filter, the two are disjoint order-respecting sublists,
and their concatenation is a permutation of the combined-deduplicated
sequence (no overlap, no gaps). -/
theorem claim_C6 : ∀ files ci po, (processCsvFiles files ci po).hasDoneColumn = true →
    ∃ dc, findDoneCol (parseFiles files).globalSchema = some dc ∧
      (processCsvFiles files ci po).done
        = (processCsvFiles files ci po).combinedDeduped.filter
            (fun r => !(isNoRow ci dc.internalKey r)) ∧
      (processCsvFiles files ci po).todo
        = (processCsvFiles files ci po).combinedDeduped.filter
            (fun r => isNoRow ci dc.internalKey r) ∧
      (∀ r ∈ (processCsvFiles files ci po).done, r ∉ (processCsvFiles files ci po).todo) ∧
      List.Perm ((processCsvFiles files ci po).done ++ (processCsvFiles files ci po).todo)
        (processCsvFiles files ci po).combinedDeduped ∧
      List.Sublist (processCsvFiles files ci po).done
        (processCsvFiles files ci po).combinedDeduped ∧
      List.Sublist (processCsvFiles files ci po).todo
        (processCsvFiles files ci po).combinedDeduped := by
  intro files ci po h
  simp only [processCsvFiles] at h ⊢
  obtain ⟨dc, hdc⟩ := Option.isSome_iff_exists.mp h
  refine ⟨dc, hdc, ?_⟩
  rw [hdc]
  refine ⟨rfl, rfl, ?_, ?_, List.filter_sublist _, List.filter_sublist _⟩
  · intro r hr hr'
    rw [List.mem_filter] at hr hr'
    rw [hr'.2] at hr
    cases hr.2
  · have hperm := List.filter_append_perm (fun r => !(isNoRow ci dc.internalKey r))
      (dedupeStage (parseFiles files).globalSchema
        (sortStage ci po (parseFiles files).globalSchema (parseFiles files).allRows))
    simpa [Bool.not_not] using hperm

/-- Witness for C6 at a concrete input with a `Done?` column: one `Yes` row
and one `No` row. -/
theorem claim_C6_witness :
    (processCsvFiles [[["Done?"], ["Yes"], ["No"]]] false true).hasDoneColumn = true ∧
    ∃ dc, findDoneCol (parseFiles [[["Done?"], ["Yes"], ["No"]]]).globalSchema = some dc ∧
      (processCsvFiles [[["Done?"], ["Yes"], ["No"]]] false true).done
        = (processCsvFiles [[["Done?"], ["Yes"], ["No"]]] false true).combinedDeduped.filter
            (fun r => !(isNoRow false dc.internalKey r)) ∧
      (processCsvFiles [[["Done?"], ["Yes"], ["No"]]] false true).todo
        = (processCsvFiles [[["Done?"], ["Yes"], ["No"]]] false true).combinedDeduped.filter
            (fun r => isNoRow false dc.internalKey r) ∧
      (∀ r ∈ (processCsvFiles [[["Done?"], ["Yes"], ["No"]]] false true).done,
        r ∉ (processCsvFiles [[["Done?"], ["Yes"], ["No"]]] false true).todo) ∧
      List.Perm ((processCsvFiles [[["Done?"], ["Yes"], ["No"]]] false true).done
          ++ (processCsvFiles [[["Done?"], ["Yes"], ["No"]]] false true).todo)
        (processCsvFiles [[["Done?"], ["Yes"], ["No"]]] false true).combinedDeduped ∧
      List.Sublist (processCsvFiles [[["Done?"], ["Yes"], ["No"]]] false true).done
        (processCsvFiles [[["Done?"], ["Yes"], ["No"]]] false true).combinedDeduped ∧
      List.Sublist (processCsvFiles [[["Done?"], ["Yes"], ["No"]]] false true).todo
        (processCsvFiles [[["Done?"], ["Yes"], ["No"]]] false true).combinedDeduped :=
  ⟨by decide, claim_C6 [[["Done?"], ["Yes"], ["No"]]] false true (by decide)⟩

/-- C7: a missing identifier column skips deduplication (the combined output
keeps all reconciled rows — exactly, when order is preserved; as a
permutation otherwise) and reports the dedupe diagnostic; a missing status
column skips the done/to-do split (both outputs empty) and reports the
status diagnostic.  The pipeline is a total function, so it returns a
combined result in both degraded modes. -/
theorem claim_C7 : ∀ files ci po,
    ((processCsvFiles files ci po).hasAssetNumberColumn = false →
      "Missing column: Asset number (dedupe skipped)" ∈ (processCsvFiles files ci po).errors ∧
      List.Perm (processCsvFiles files ci po).combinedDeduped (parseFiles files).allRows ∧
      (po = true →
        (processCsvFiles files ci po).combinedDeduped = (parseFiles files).allRows)) ∧
    ((processCsvFiles files ci po).hasDoneColumn = false →
      (processCsvFiles files ci po).done = [] ∧ (processCsvFiles files ci po).todo = [] ∧
      "Missing column: Done?" ∈ (processCsvFiles files ci po).errors) := by
  intro files ci po
  constructor
  · intro h
    simp only [processCsvFiles] at h ⊢
    have hnone : findAssetCol (parseFiles files).globalSchema = none :=
      Option.not_isSome_iff_eq_none.mp (by simp [h])
    refine ⟨by simp [h], ?_, ?_⟩
    · rw [dedupeStage, hnone]
      exact sortStage_perm ci po _ _
    · intro hpo
      rw [dedupeStage, hnone, hpo, sortStage_preserveOrder]
  · intro h
    simp only [processCsvFiles] at h ⊢
    have hnone : findDoneCol (parseFiles files).globalSchema = none :=
      Option.not_isSome_iff_eq_none.mp (by simp [h])
    rw [hnone]
    exact ⟨rfl, rfl, by simp [h]⟩

/-- Witness for C7 at a concrete input that has neither required column. -/
theorem claim_C7_witness :
    ((processCsvFiles [[["A"], ["x"]]] false true).hasAssetNumberColumn = false ∧
      "Missing column: Asset number (dedupe skipped)"
          ∈ (processCsvFiles [[["A"], ["x"]]] false true).errors ∧
      List.Perm (processCsvFiles [[["A"], ["x"]]] false true).combinedDeduped
        (parseFiles [[["A"], ["x"]]]).allRows ∧
      (true = true →
        (processCsvFiles [[["A"], ["x"]]] false true).combinedDeduped
          = (parseFiles [[["A"], ["x"]]]).allRows)) ∧
    ((processCsvFiles [[["A"], ["x"]]] false true).hasDoneColumn = false ∧
      (processCsvFiles [[["A"], ["x"]]] false true).done = [] ∧
      (processCsvFiles [[["A"], ["x"]]] false true).todo = [] ∧
      "Missing column: Done?" ∈ (processCsvFiles [[["A"], ["x"]]] false true).errors) :=
  ⟨⟨by decide, (claim_C7 [[["A"], ["x"]]] false true).1 (by decide)⟩,
    ⟨by decide, (claim_C7 [[["A"], ["x"]]] false true).2 (by decide)⟩⟩

/-! ## Lemmas about record keys (claim C1) -/

theorem buildRowObj_keys : ∀ (g l : List ColumnInfo) (row : List String),
    (buildRowObj g l row).map Prod.fst = g.map (·.internalKey) := by
  intro g l row
  unfold buildRowObj
  rw [List.map_map]
  apply List.map_congr_left
  intro a _
  cases h : l.findIdx? (fun c => c.internalKey == a.internalKey) <;>
    simp [Function.comp, h]

/-- One unfolding step of `mergeSchema`. -/
theorem mergeSchema_cons (g : List ColumnInfo) (lc : ColumnInfo) (t : List ColumnInfo) :
    mergeSchema g (lc :: t) = mergeSchema
      (match g.find? (fun c => c.internalKey == lc.internalKey) with
        | some _ => g
        | none => g ++ [lc]) t := rfl

theorem mergeSchema_keys_ext : ∀ (l g : List ColumnInfo),
    ∃ t, (mergeSchema g l).map (·.internalKey) = g.map (·.internalKey) ++ t := by
  intro l
  induction l with
  | nil => intro g; exact ⟨[], by simp [mergeSchema]⟩
  | cons lc t ih =>
    intro g
    rw [mergeSchema_cons]
    cases hfind : g.find? (fun c => c.internalKey == lc.internalKey) with
    | some _ => exact ih g
    | none =>
      obtain ⟨t', ht'⟩ := ih (g ++ [lc])
      exact ⟨lc.internalKey :: t', by simpa [List.append_assoc] using ht'⟩

theorem processFileStep_rowsInv (i : Nat) (st : ParseState) (f : List (List String))
    (h : RowsInv st) (h0 : i = 0 → st.allRows = []) :
    RowsInv (processFileStep i st f) := by
  match f with
  | [] => exact h
  | headerRow :: dataRows =>
    rw [processFileStep]
    intro r hr
    simp only [List.mem_append] at hr
    rcases hr with hr | hr
    · by_cases hi : i = 0
      · rw [h0 hi] at hr
        cases hr
      · simp only [if_neg hi]
        obtain ⟨t, ht⟩ := h r hr
        obtain ⟨t', ht'⟩ := mergeSchema_keys_ext (buildLocalSchema headerRow) st.globalSchema
        exact ⟨t ++ t', by rw [← List.append_assoc, ht, ht']⟩
    · obtain ⟨row, _, hrow⟩ := List.mem_map.mp hr
      exact ⟨[], by rw [← hrow, buildRowObj_keys, List.append_nil]⟩

theorem parseFilesGo_rowsInv : ∀ (files : List (List (List String))) (i : Nat)
    (st : ParseState), RowsInv st → (i = 0 → st.allRows = []) →
    RowsInv (parseFilesGo i st files) := by
  intro files
  induction files with
  | nil => intro i st h _; exact h
  | cons f fs ih =>
    intro i st h h0
    exact ih (i + 1) _ (processFileStep_rowsInv i st f h h0)
      (fun hc => absurd hc (Nat.succ_ne_zero i))

theorem parseFiles_rowsInv (files : List (List (List String))) :
    RowsInv (parseFiles files) :=
  parseFilesGo_rowsInv files 0 _ (fun r hr => absurd hr (List.not_mem_nil r)) (fun _ => rfl)

/-! ## Claim C1 (corrected) -/

/-- C1 (counterexample to the claim as stated): with a first file introducing
only column `A` and a second file introducing column `B`, the canonical
schema contains `B__occ1`, yet the emitted record that originated from the
first file carries no value for that canonical key. -/
theorem claim_C1_counterexample :
    "B__occ1" ∈ (processCsvFiles [[["A"], ["x"]], [["B"], ["y"]]] false true).schema.map
      (·.internalKey) ∧
    ∃ r ∈ (processCsvFiles [[["A"], ["x"]], [["B"], ["y"]]] false true).combinedDeduped,
      "B__occ1" ∉ r.map Prod.fst := by
  decide

/-- C1 (amended): every emitted record's key list is, in order, a prefix of
the canonical schema's `internalKey` list and has no duplicates.  Hence each
record has exactly one value for every descriptor present when it was
created and carries no key outside the canonical schema; only descriptors
appended by later files may be absent from records of earlier files. -/
theorem claim_C1_amended : ∀ files ci po (r : CsvRow),
    r ∈ (processCsvFiles files ci po).combinedDeduped →
    (∃ t, r.map Prod.fst ++ t
        = (processCsvFiles files ci po).schema.map (·.internalKey)) ∧
    (r.map Prod.fst).Nodup ∧
    ∀ k ∈ r.map Prod.fst, k ∈ (processCsvFiles files ci po).schema.map (·.internalKey) := by
  intro files ci po r hr
  have hmem : r ∈ (parseFiles files).allRows := combinedDeduped_mem files ci po r hr
  have hschema : (processCsvFiles files ci po).schema = (parseFiles files).globalSchema := by
    simp [processCsvFiles]
  obtain ⟨t, ht⟩ := parseFiles_rowsInv files r hmem
  rw [hschema]
  refine ⟨⟨t, ht⟩, ?_, ?_⟩
  · have hnd : ((parseFiles files).globalSchema.map (·.internalKey)).Nodup :=
      (parseFiles_schemaInv files).1
    rw [← ht] at hnd
    exact List.Nodup.of_append_left hnd
  · intro k hk
    rw [← ht]
    exact List.mem_append_left t hk

/-- Witness for the amended C1 at a concrete single-file input. -/
theorem claim_C1_witness :
    [("A__occ1", "x")] ∈ (processCsvFiles [[["A"], ["x"]]] false true).combinedDeduped ∧
    ((∃ t, [("A__occ1", "x")].map Prod.fst ++ t
        = (processCsvFiles [[["A"], ["x"]]] false true).schema.map (·.internalKey)) ∧
      ([("A__occ1", "x")].map Prod.fst).Nodup ∧
      ∀ k ∈ [("A__occ1", "x")].map Prod.fst,
        k ∈ (processCsvFiles [[["A"], ["x"]]] false true).schema.map (·.internalKey)) :=
  ⟨by decide, claim_C1_amended [[["A"], ["x"]]] false true [("A__occ1", "x")] (by decide)⟩

/-! ## Lemmas about the sort step (claim C3) -/

theorem orderedInsert_filter_key_eq {α : Type} (f : α → Nat) (k : Nat) (x : α)
    (hx : f x = k) : ∀ l : List α,
    (List.orderedInsert (fun a b => f a ≤ f b) x l).filter (fun a => f a == k)
      = x :: l.filter (fun a => f a == k) := by
  intro l
  induction l with
  | nil => simp [List.orderedInsert, hx]
  | cons y l ih =>
    by_cases h : f x ≤ f y
    · rw [List.orderedInsert, if_pos h, List.filter_cons]
      simp [hx]
    · have hy : f y ≠ k := by intro hc; exact h (by rw [hx, hc])
      rw [List.orderedInsert, if_neg h, List.filter_cons, ih, List.filter_cons]
      simp [hy]

theorem orderedInsert_filter_key_ne {α : Type} (f : α → Nat) (k : Nat) (x : α)
    (hx : f x ≠ k) : ∀ l : List α,
    (List.orderedInsert (fun a b => f a ≤ f b) x l).filter (fun a => f a == k)
      = l.filter (fun a => f a == k) := by
  intro l
  induction l with
  | nil => simp [List.orderedInsert, hx]
  | cons y l ih =>
    by_cases h : f x ≤ f y
    · rw [List.orderedInsert, if_pos h, List.filter_cons]
      simp [hx]
    · rw [List.orderedInsert, if_neg h, List.filter_cons, ih, List.filter_cons]

theorem insertionSort_filter_key {α : Type} (f : α → Nat) (k : Nat) : ∀ l : List α,
    (List.insertionSort (fun a b => f a ≤ f b) l).filter (fun a => f a == k)
      = l.filter (fun a => f a == k) := by
  intro l
  induction l with
  | nil => rfl
  | cons x l ih =>
    rw [List.insertionSort, List.filter_cons]
    by_cases hx : f x = k
    · rw [orderedInsert_filter_key_eq f k x hx, ih]
      simp [hx]
    · rw [orderedInsert_filter_key_ne f k x hx, ih]
      simp [hx]

theorem jsToLower_eq_empty {s : String} (h : jsToLower s = "") : s = "" := by
  have hdata : (jsToLower s).data = [] := by rw [h]
  rw [jsToLower] at hdata
  have hnil : s.data = [] := List.map_eq_nil_iff.mp hdata
  cases s with
  | mk d =>
    cases hnil
    rfl

theorem sortStage_done (ci : Bool) (schema : List ColumnInfo) (rows : List CsvRow)
    (dc : ColumnInfo) (h : findDoneCol schema = some dc) :
    sortStage ci false schema rows = doneSortStage ci dc.internalKey rows := by
  unfold sortStage
  rw [h]

/-! ## Claim C3 -/

/-- C3: with preserve-order false and the status column present, every record
receives a priority from its status value — exact match (under the case
rule) with the done marker gives 1, blank after trimming gives 4, the
not-done marker gives 5, the no-lube-point marker gives 3, anything else
non-blank gives 2 — and the pipeline's sort step is the stable ascending
sort by that priority: it permutes the rows, yields a priority-sorted
sequence, and preserves the relative input order within every priority
class. -/
theorem claim_C3 : ∀ ci : Bool,
    (∀ v, (if ci then jsToLower (jsTrim v) else jsTrim v) = (if ci then "yes" else "Yes") →
      getSortPriority ci v = 1) ∧
    (∀ v, jsTrim v = "" → getSortPriority ci v = 4) ∧
    (∀ v, (if ci then jsToLower (jsTrim v) else jsTrim v) = (if ci then "no" else "No") →
      getSortPriority ci v = 5) ∧
    (∀ v, (if ci then jsToLower (jsTrim v) else jsTrim v) = (if ci then "nlp" else "Nlp") →
      getSortPriority ci v = 3) ∧
    (∀ v, jsTrim v ≠ "" →
      (if ci then jsToLower (jsTrim v) else jsTrim v) ≠ (if ci then "yes" else "Yes") →
      (if ci then jsToLower (jsTrim v) else jsTrim v) ≠ (if ci then "no" else "No") →
      (if ci then jsToLower (jsTrim v) else jsTrim v) ≠ (if ci then "nlp" else "Nlp") →
      getSortPriority ci v = 2) ∧
    (∀ key rows,
      List.Perm (doneSortStage ci key rows) rows ∧
      List.Sorted (sortLE ci key) (doneSortStage ci key rows) ∧
      (∀ k, (doneSortStage ci key rows).filter
            (fun r => getSortPriority ci (rowGet r key) == k)
          = rows.filter (fun r => getSortPriority ci (rowGet r key) == k))) ∧
    (∀ files, (processCsvFiles files ci false).hasDoneColumn = true →
      ∃ dc, findDoneCol (parseFiles files).globalSchema = some dc ∧
        (processCsvFiles files ci false).combinedDeduped
          = dedupeStage (parseFiles files).globalSchema
              (doneSortStage ci dc.internalKey (parseFiles files).allRows)) := by
  intro ci
  refine ⟨?_, ?_, ?_, ?_, ?_, ?_, ?_⟩
  · intro v hv
    cases ci <;> simp at hv <;> simp [getSortPriority, hv]
  · intro v hv
    cases ci with
    | false => simp [getSortPriority, hv]
    | true =>
      simp [getSortPriority, hv]
      decide
  · intro v hv
    cases ci <;> simp at hv <;> simp [getSortPriority, hv]
  · intro v hv
    cases ci <;> simp at hv <;> simp [getSortPriority, hv]
  · intro v hb h1 h5 h3
    cases ci with
    | false =>
      simp at h1 h5 h3
      simp [getSortPriority, hb, h1, h5, h3]
    | true =>
      simp at h1 h5 h3
      have hcmp : jsToLower (jsTrim v) ≠ "" := fun hc => hb (jsToLower_eq_empty hc)
      simp [getSortPriority, hcmp, h1, h5, h3]
  · intro key rows
    refine ⟨List.perm_insertionSort _ rows, List.sorted_insertionSort _ rows, fun k => ?_⟩
    exact insertionSort_filter_key (fun r => getSortPriority ci (rowGet r key)) k rows
  · intro files h
    have h' : (findDoneCol (parseFiles files).globalSchema).isSome = true := by
      simpa [processCsvFiles] using h
    obtain ⟨dc, hdc⟩ := Option.isSome_iff_exists.mp h'
    refine ⟨dc, hdc, ?_⟩
    simp only [processCsvFiles]
    rw [sortStage_done ci _ _ dc hdc]

/-- Witness for C3 at concrete status values (case-sensitive mode) and a
concrete two-row sort. -/
theorem claim_C3_witness :
    getSortPriority false "Yes" = 1 ∧ getSortPriority false "  " = 4 ∧
    getSortPriority false "No" = 5 ∧ getSortPriority false "Nlp" = 3 ∧
    getSortPriority false "maybe" = 2 ∧
    (processCsvFiles [[["Done?"], ["No"], ["Yes"]]] false false).hasDoneColumn = true ∧
    ∃ dc, findDoneCol (parseFiles [[["Done?"], ["No"], ["Yes"]]]).globalSchema = some dc ∧
      (processCsvFiles [[["Done?"], ["No"], ["Yes"]]] false false).combinedDeduped
        = dedupeStage (parseFiles [[["Done?"], ["No"], ["Yes"]]]).globalSchema
            (doneSortStage false dc.internalKey
              (parseFiles [[["Done?"], ["No"], ["Yes"]]]).allRows) :=
  ⟨(claim_C3 false).1 "Yes" (by decide),
    (claim_C3 false).2.1 "  " (by decide),
    (claim_C3 false).2.2.1 "No" (by decide),
    (claim_C3 false).2.2.2.1 "Nlp" (by decide),
    (claim_C3 false).2.2.2.2.1 "maybe" (by decide) (by decide) (by decide) (by decide),
    by decide,
    (claim_C3 false).2.2.2.2.2.2 [[["Done?"], ["No"], ["Yes"]]] (by decide)⟩

/-! ## Claim C8 -/

/-- C8: the classifier's normalized status comes from the raw (trimmed)
status value by case-insensitive substring rules applied in order with first
match winning — "not accessible"/"non accessible" → `Not Accessible`,
"not found"/"pas trouvé" → `Not Found`, exact equality with "nlp" → `NLP`,
"question" → `Question`, "out of scope"/"hors scope"/"obsolete" →
`Out of scope` — the raw trimmed value is kept when no rule matches, and in
particular the value `Hors scope` yields `Out of scope` with `isDone`
false. -/
theorem claim_C8 :
    (∀ schema row,
      (processEquipRow schema row).status = computeStatus (getCol schema row "Done?") ∧
      (processEquipRow schema row).isDone
        = (jsToLower (getCol schema row "Done?") == "yes")) ∧
    (∀ v : String,
      ((strIncludes (jsToLower v) "not accessible" = true ∨
          strIncludes (jsToLower v) "non accessible" = true) →
        computeStatus v = "Not Accessible") ∧
      (strIncludes (jsToLower v) "not accessible" = false →
        strIncludes (jsToLower v) "non accessible" = false →
        (strIncludes (jsToLower v) "not found" = true ∨
          strIncludes (jsToLower v) "pas trouvé" = true) →
        computeStatus v = "Not Found") ∧
      (strIncludes (jsToLower v) "not accessible" = false →
        strIncludes (jsToLower v) "non accessible" = false →
        strIncludes (jsToLower v) "not found" = false →
        strIncludes (jsToLower v) "pas trouvé" = false →
        jsToLower v = "nlp" →
        computeStatus v = "NLP") ∧
      (strIncludes (jsToLower v) "not accessible" = false →
        strIncludes (jsToLower v) "non accessible" = false →
        strIncludes (jsToLower v) "not found" = false →
        strIncludes (jsToLower v) "pas trouvé" = false →
        jsToLower v ≠ "nlp" →
        strIncludes (jsToLower v) "question" = true →
        computeStatus v = "Question") ∧
      (strIncludes (jsToLower v) "not accessible" = false →
        strIncludes (jsToLower v) "non accessible" = false →
        strIncludes (jsToLower v) "not found" = false →
        strIncludes (jsToLower v) "pas trouvé" = false →
        jsToLower v ≠ "nlp" →
        strIncludes (jsToLower v) "question" = false →
        (strIncludes (jsToLower v) "out of scope" = true ∨
          strIncludes (jsToLower v) "hors scope" = true ∨
          strIncludes (jsToLower v) "obsolete" = true) →
        computeStatus v = "Out of scope") ∧
      (strIncludes (jsToLower v) "not accessible" = false →
        strIncludes (jsToLower v) "non accessible" = false →
        strIncludes (jsToLower v) "not found" = false →
        strIncludes (jsToLower v) "pas trouvé" = false →
        jsToLower v ≠ "nlp" →
        strIncludes (jsToLower v) "question" = false →
        strIncludes (jsToLower v) "out of scope" = false →
        strIncludes (jsToLower v) "hors scope" = false →
        strIncludes (jsToLower v) "obsolete" = false →
        computeStatus v = v)) ∧
    (computeStatus "Hors scope" = "Out of scope" ∧
      (jsToLower "Hors scope" == "yes") = false) := by
  refine ⟨?_, ?_, by decide, by decide⟩
  · intro schema row
    exact ⟨rfl, rfl⟩
  · intro v
    refine ⟨?_, ?_, ?_, ?_, ?_, ?_⟩
    · rintro (h | h) <;> simp [computeStatus, h]
    · intro h1 h2 h
      rcases h with h | h <;> simp [computeStatus, h1, h2, h]
    · intro h1 h2 h3 h4 hn
      simp [computeStatus, h1, h2, h3, h4, hn]
      decide
    · intro h1 h2 h3 h4 hn hq
      simp [computeStatus, h1, h2, h3, h4, hn, hq]
    · intro h1 h2 h3 h4 hn hq ho
      rcases ho with ho | ho | ho <;> simp [computeStatus, h1, h2, h3, h4, hn, hq, ho]
    · intro h1 h2 h3 h4 hn hq ho1 ho2 ho3
      simp [computeStatus, h1, h2, h3, h4, hn, hq, ho1, ho2, ho3]

/-- Witness for C8: concrete rule firings, including the "Hors scope"
example read through a record. -/
theorem claim_C8_witness :
    (strIncludes (jsToLower "Not ACCESSIBLE now") "not accessible" = true ∧
      computeStatus "Not ACCESSIBLE now" = "Not Accessible") ∧
    (strIncludes (jsToLower "Big Question 2") "question" = true ∧
      computeStatus "Big Question 2" = "Question") ∧
    ((processEquipRow [⟨"Done?", 1, "Done?__occ1"⟩] [("Done?__occ1", " Hors scope ")]).status
      = computeStatus (getCol [⟨"Done?", 1, "Done?__occ1"⟩] [("Done?__occ1", " Hors scope ")] "Done?")) :=
  ⟨⟨by decide, (claim_C8.2.1 "Not ACCESSIBLE now").1 (Or.inl (by decide))⟩,
    ⟨by decide, (claim_C8.2.1 "Big Question 2").2.2.2.1 (by decide) (by decide) (by decide)
      (by decide) (by decide) (by decide)⟩,
    (claim_C8.1 [⟨"Done?", 1, "Done?__occ1"⟩] [("Done?__occ1", " Hors scope ")]).1⟩

/-! ## Lemmas about page assignment (claim C9) -/

theorem pageKey_setPage (e : ProcessedEquipment) (n : Nat) :
    pageKey { e with pageNumber := some n } = pageKey e := rfl

theorem groupInsert_keys (k : String) (e : ProcessedEquipment) :
    ∀ m : List (String × List ProcessedEquipment),
    (groupInsert m k e).map Prod.fst
      = if k ∈ m.map Prod.fst then m.map Prod.fst else m.map Prod.fst ++ [k] := by
  intro m
  induction m with
  | nil => simp [groupInsert]
  | cons p rest ih =>
    obtain ⟨k', es⟩ := p
    by_cases hkk : k' = k
    · subst hkk
      simp [groupInsert]
    · by_cases hk : k ∈ rest.map Prod.fst
      · simp [groupInsert, hkk, ih, hk, Ne.symm hkk]
      · simp [groupInsert, hkk, ih, hk, Ne.symm hkk]

theorem groupInsert_entries (k : String) (e : ProcessedEquipment) (hk : pageKey e = k) :
    ∀ m : List (String × List ProcessedEquipment),
    (∀ p ∈ m, ∀ x ∈ p.2, pageKey x = p.1) →
    ∀ p ∈ groupInsert m k e, ∀ x ∈ p.2, pageKey x = p.1 := by
  intro m
  induction m with
  | nil =>
    intro _ p hp x hx
    rw [List.mem_singleton.mp hp] at hx ⊢
    rw [List.mem_singleton.mp hx]
    exact hk
  | cons q rest ih =>
    obtain ⟨k', es⟩ := q
    intro h p hp x hx
    by_cases hkk : k' = k
    · subst hkk
      simp only [groupInsert, beq_self_eq_true, if_pos, ite_true] at hp
      rcases List.mem_cons.mp hp with hp | hp
      · subst hp
        rcases List.mem_append.mp hx with hx | hx
        · exact h (k', es) (List.mem_cons_self _ _) x hx
        · rw [List.mem_singleton.mp hx]
          exact hk
      · exact h p (List.mem_cons_of_mem _ hp) x hx
    · have hbeq : (k' == k) = false := by simp [hkk]
      simp only [groupInsert, hbeq, Bool.false_eq_true, if_false, ite_false] at hp
      rcases List.mem_cons.mp hp with hp | hp
      · subst hp
        exact h (k', es) (List.mem_cons_self _ _) x hx
      · exact ih (fun q hq => h q (List.mem_cons_of_mem _ hq)) p hp x hx

theorem groupInsert_nonempty (k : String) (e : ProcessedEquipment) :
    ∀ m : List (String × List ProcessedEquipment),
    (∀ p ∈ m, p.2 ≠ []) → ∀ p ∈ groupInsert m k e, p.2 ≠ [] := by
  intro m
  induction m with
  | nil =>
    intro _ p hp
    rw [List.mem_singleton.mp hp]
    simp
  | cons q rest ih =>
    obtain ⟨k', es⟩ := q
    intro h p hp
    by_cases hkk : k' = k
    · subst hkk
      simp only [groupInsert, beq_self_eq_true, if_pos, ite_true] at hp
      rcases List.mem_cons.mp hp with hp | hp
      · subst hp
        simp
      · exact h p (List.mem_cons_of_mem _ hp)
    · have hbeq : (k' == k) = false := by simp [hkk]
      simp only [groupInsert, hbeq, Bool.false_eq_true, if_false, ite_false] at hp
      rcases List.mem_cons.mp hp with hp | hp
      · subst hp
        exact h (k', es) (List.mem_cons_self _ _)
      · exact ih (fun q hq => h q (List.mem_cons_of_mem _ hq)) p hp

theorem buildGroups_keys_gen : ∀ (l : List ProcessedEquipment)
    (m : List (String × List ProcessedEquipment)),
    ((l.foldl (fun m e => groupInsert m (pageKey e) e) m).map Prod.fst)
      = l.foldl (fun ks e => if ks.contains (pageKey e) then ks else ks ++ [pageKey e])
          (m.map Prod.fst) := by
  intro l
  induction l with
  | nil => intro m; rfl
  | cons e t ih =>
    intro m
    rw [List.foldl_cons, List.foldl_cons, ih]
    by_cases h : pageKey e ∈ m.map Prod.fst
    · rw [groupInsert_keys, if_pos h]
      have hc : ((m.map Prod.fst).contains (pageKey e)) = true := by
        simpa [List.elem_iff] using h
      rw [hc]
      simp
    · rw [groupInsert_keys, if_neg h]
      have hc : ((m.map Prod.fst).contains (pageKey e)) = false := by
        simp [List.elem_iff, h]
      rw [hc]
      simp

theorem buildGroups_keys (l : List ProcessedEquipment) :
    (buildGroups l).map Prod.fst = firstKeys l :=
  buildGroups_keys_gen l []

theorem buildGroups_inv (l : List ProcessedEquipment) :
    ((buildGroups l).map Prod.fst).Nodup ∧
    (∀ p ∈ buildGroups l, ∀ x ∈ p.2, pageKey x = p.1) ∧
    (∀ p ∈ buildGroups l, p.2 ≠ []) := by
  suffices h : ∀ (t : List ProcessedEquipment) (m : List (String × List ProcessedEquipment)),
      ((m.map Prod.fst).Nodup ∧ (∀ p ∈ m, ∀ x ∈ p.2, pageKey x = p.1) ∧ (∀ p ∈ m, p.2 ≠ [])) →
      (((t.foldl (fun m e => groupInsert m (pageKey e) e) m).map Prod.fst).Nodup ∧
        (∀ p ∈ t.foldl (fun m e => groupInsert m (pageKey e) e) m, ∀ x ∈ p.2, pageKey x = p.1) ∧
        (∀ p ∈ t.foldl (fun m e => groupInsert m (pageKey e) e) m, p.2 ≠ [])) by
    exact h l [] ⟨List.nodup_nil, fun p hp => absurd hp (List.not_mem_nil p),
      fun p hp => absurd hp (List.not_mem_nil p)⟩
  intro t
  induction t with
  | nil => intro m h; exact h
  | cons e s ih =>
    intro m ⟨hnd, hent, hne⟩
    rw [List.foldl_cons]
    refine ih _ ⟨?_, groupInsert_entries (pageKey e) e rfl m hent,
      groupInsert_nonempty (pageKey e) e m hne⟩
    rw [groupInsert_keys]
    by_cases h : pageKey e ∈ m.map Prod.fst
    · rw [if_pos h]; exact hnd
    · rw [if_neg h]
      rw [List.nodup_append]
      refine ⟨hnd, List.nodup_singleton _, ?_⟩
      intro a ha hb
      rw [List.mem_singleton] at hb
      subst hb
      exact h ha

theorem numberGroups_mem : ∀ (gs : List (String × List ProcessedEquipment)) (n : Nat)
    (o : ProcessedEquipment),
    (∀ p ∈ gs, ∀ x ∈ p.2, pageKey x = p.1) →
    o ∈ numberGroups n gs →
    ∃ j, (gs.map Prod.fst)[j]? = some (pageKey o) ∧ o.pageNumber = some (n + j) := by
  intro gs
  induction gs with
  | nil => intro n o _ h; cases h
  | cons p rest ih =>
    obtain ⟨k, es⟩ := p
    intro n o hent ho
    rw [numberGroups] at ho
    rcases List.mem_append.mp ho with ho | ho
    · obtain ⟨e, he, hoe⟩ := List.mem_map.mp ho
      refine ⟨0, ?_, ?_⟩
      · rw [← hoe, pageKey_setPage]
        simp [hent (k, es) (List.mem_cons_self _ _) e he]
      · rw [← hoe]
        simp
    · obtain ⟨j, hj, hpage⟩ := ih (n + 1) o
        (fun q hq => hent q (List.mem_cons_of_mem _ hq)) ho
      refine ⟨j + 1, by simpa using hj, ?_⟩
      rw [hpage]
      congr 1
      omega

theorem numberGroups_surj : ∀ (gs : List (String × List ProcessedEquipment)) (n : Nat)
    (j : Nat) (k : String),
    (gs.map Prod.fst)[j]? = some k →
    (∀ p ∈ gs, p.2 ≠ []) →
    (∀ p ∈ gs, ∀ x ∈ p.2, pageKey x = p.1) →
    ∃ o ∈ numberGroups n gs, o.pageNumber = some (n + j) ∧ pageKey o = k := by
  intro gs
  induction gs with
  | nil => intro n j k hj _ _; simp at hj
  | cons p rest ih =>
    obtain ⟨k', es⟩ := p
    intro n j k hj hne hent
    match j with
    | 0 =>
      simp only [List.map_cons, List.getElem?_cons_zero, Option.some.injEq] at hj
      subst hj
      have hnee : es ≠ [] := hne (k', es) (List.mem_cons_self _ _)
      obtain ⟨e, es', rfl⟩ := List.exists_cons_of_ne_nil hnee
      refine ⟨{ e with pageNumber := some n }, ?_, by simp, ?_⟩
      · rw [numberGroups]
        exact List.mem_append_left _ (List.mem_map_of_mem _ (List.mem_cons_self _ _))
      · rw [pageKey_setPage]
        exact hent (k', e :: es') (List.mem_cons_self _ _) e (List.mem_cons_self _ _)
    | j' + 1 =>
      simp only [List.map_cons, List.getElem?_cons_succ] at hj
      obtain ⟨o, ho, hpage, hkey⟩ := ih (n + 1) j' k hj
        (fun q hq => hne q (List.mem_cons_of_mem _ hq))
        (fun q hq => hent q (List.mem_cons_of_mem _ hq))
      refine ⟨o, ?_, ?_, hkey⟩
      · rw [numberGroups]
        exact List.mem_append_right _ ho
      · rw [hpage]
        congr 1
        omega

theorem nodup_getElem?_inj {α : Type} : ∀ (l : List α), l.Nodup →
    ∀ (i j : Nat) (x : α), l[i]? = some x → l[j]? = some x → i = j := by
  intro l
  induction l with
  | nil => intro _ i j x hi; simp at hi
  | cons a t ih =>
    intro hnd i j x hi hj
    rw [List.nodup_cons] at hnd
    match i, j with
    | 0, 0 => rfl
    | 0, j' + 1 =>
      simp only [List.getElem?_cons_zero, Option.some.injEq] at hi
      simp only [List.getElem?_cons_succ] at hj
      subst hi
      exact absurd (List.getElem?_mem hj) hnd.1
    | i' + 1, 0 =>
      simp only [List.getElem?_cons_zero, Option.some.injEq] at hj
      simp only [List.getElem?_cons_succ] at hi
      subst hj
      exact absurd (List.getElem?_mem hi) hnd.1
    | i' + 1, j' + 1 =>
      simp only [List.getElem?_cons_succ] at hi hj
      rw [ih hnd.2 i' j' x hi hj]

/-! ## Claim C9 (corrected) -/

/-- C9 (counterexample to the claim as stated): the grouping key is the
string concatenation `area ++ "_" ++ identifier`, so the distinct pairs
(`a_b`, `c`) and (`a`, `b_c`) collide on the key `a_b_c` and receive the
same page number even though they are different (area, identifier) groups —
refuting "same page number only if same (area, identifier) group". -/
theorem claim_C9_counterexample :
    ((mkEquip "a_b" "c" none).area, (mkEquip "a_b" "c" none).assetNumber)
      ≠ ((mkEquip "a" "b_c" none).area, (mkEquip "a" "b_c" none).assetNumber) ∧
    (assignPageNumbers [mkEquip "a_b" "c" none, mkEquip "a" "b_c" none]).map (·.pageNumber)
      = [some 1, some 1] := by
  decide

/-- C9 (amended): the Page Assigner groups records by the concatenated key
`(area-or-"Unknown") ++ "_" ++ (identifier-or-"Unknown")`; pages are the
strictly increasing sequence 1, 2, … in first-encounter order of these keys
(a record's page is one plus the position of its key in the first-encounter
key sequence, and every such page is hit), and two output records receive
the same page number exactly when they have the same concatenated key —
distinct (area, identifier) pairs coincide when their concatenations
collide. -/
theorem claim_C9_amended : ∀ l : List ProcessedEquipment,
    ((buildGroups l).map Prod.fst = firstKeys l) ∧
    (∀ o ∈ assignPageNumbers l,
      ∃ j, (firstKeys l)[j]? = some (pageKey o) ∧ o.pageNumber = some (j + 1)) ∧
    (∀ j k, (firstKeys l)[j]? = some k →
      ∃ o ∈ assignPageNumbers l, o.pageNumber = some (j + 1) ∧ pageKey o = k) ∧
    (∀ o₁ ∈ assignPageNumbers l, ∀ o₂ ∈ assignPageNumbers l,
      (o₁.pageNumber = o₂.pageNumber ↔ pageKey o₁ = pageKey o₂)) := by
  intro l
  obtain ⟨hnd, hent, hne⟩ := buildGroups_inv l
  have hkeys := buildGroups_keys l
  have hmem : ∀ o ∈ assignPageNumbers l,
      ∃ j, (firstKeys l)[j]? = some (pageKey o) ∧ o.pageNumber = some (j + 1) := by
    intro o ho
    obtain ⟨j, hj, hpage⟩ := numberGroups_mem (buildGroups l) 1 o hent ho
    rw [hkeys] at hj
    exact ⟨j, hj, by rw [hpage]; congr 1; omega⟩
  refine ⟨hkeys, hmem, ?_, ?_⟩
  · intro j k hj
    rw [← hkeys] at hj
    obtain ⟨o, ho, hpage, hkey⟩ := numberGroups_surj (buildGroups l) 1 j k hj hne hent
    exact ⟨o, ho, by rw [hpage]; congr 1; omega, hkey⟩
  · intro o₁ h₁ o₂ h₂
    obtain ⟨j₁, hj₁, hp₁⟩ := hmem o₁ h₁
    obtain ⟨j₂, hj₂, hp₂⟩ := hmem o₂ h₂
    constructor
    · intro hp
      rw [hp₁, hp₂] at hp
      have : j₁ = j₂ := by
        have := Option.some.inj hp
        omega
      rw [this] at hj₁
      rw [hj₂] at hj₁
      exact (Option.some.inj hj₁).symm
    · intro hk
      have hndk : (firstKeys l).Nodup := by rw [← hkeys]; exact hnd
      rw [hk] at hj₁
      have : j₁ = j₂ := nodup_getElem?_inj (firstKeys l) hndk j₁ j₂ (pageKey o₂) hj₁ hj₂
      rw [hp₁, hp₂, this]

/-- Witness for the amended C9 at a concrete two-record input sharing one
group. -/
theorem claim_C9_witness :
    mkEquip "a" "c" (some 1) ∈ assignPageNumbers [mkEquip "a" "c" none] ∧
    ∃ j, (firstKeys [mkEquip "a" "c" none])[j]? = some (pageKey (mkEquip "a" "c" (some 1))) ∧
      (mkEquip "a" "c" (some 1)).pageNumber = some (j + 1) :=
  ⟨by decide, (claim_C9_amended [mkEquip "a" "c" none]).2.1 _ (by decide)⟩

/-- Witness for C10: `A1` and `a1` differ only in case and are both kept. -/
theorem claim_C10_witness :
    (jsTrim (rowGet [("k", "A1")] "k") ≠ jsTrim (rowGet [("k", "a1")] "k") ∧
      jsToLower (jsTrim (rowGet [("k", "A1")] "k"))
        = jsToLower (jsTrim (rowGet [("k", "a1")] "k"))) ∧
    dedupeRows "k" [[("k", "A1")], [("k", "a1")]] = [[("k", "A1")], [("k", "a1")]] :=
  ⟨⟨by decide, by decide⟩,
    claim_C10.2 "k" [("k", "A1")] [("k", "a1")] (by decide) (by decide)⟩

end Collecte
